import Mathlib

/-!
Verification of the news-aggregator pipeline (News_aggregator_cli.py).

The pure pipeline stages are embedded shallowly:
* `Headline` is the canonical record `{source, title, url, publishedAt}`.
* `deduplicate` mirrors `deduplicate(headlines)`: a `seen` set of
  `(title, source)` keys, first occurrence wins.  The Python `set` is
  modelled by a list queried only through membership.
* `filter_headlines` mirrors `filter_headlines(headlines, source, keyword,
  date)`, including Python truthiness of the three optional arguments.
* `fetch_newsapi_headlines`, `fetch_bbc_headlines`, `fetch_cnn_headlines`
  are embedded as pure functions of the raw data the network/HTML layer
  hands them (the list of articles resp. selected text nodes, and the
  collection timestamp for the scrapers).
* `runAll` models the fetch-and-pipeline portion of `main()` for
  `--source all`: the three fetches run in order and any raised fetch
  error propagates (there is no try/except in `main`), modelled by the
  `Except` monad.
-/

namespace NewsAgg

/-- The canonical headline record built by every adapter. -/
structure Headline where
  source : String
  title : String
  url : String
  publishedAt : String
deriving DecidableEq

/-- The deduplication identity key `(h['title'], h['source'])`. -/
def key (h : Headline) : String × String := (h.title, h.source)

/-- Loop of `deduplicate`: `seen` holds the keys already encountered. -/
def dedupAux (seen : List (String × String)) : List Headline → List Headline
  | [] => []
  | h :: rest =>
    if key h ∈ seen then dedupAux seen rest
    else h :: dedupAux (key h :: seen) rest

/-- `deduplicate(headlines)` from the source: keep a headline iff its
`(title, source)` key was not seen before, then mark it seen. -/
def deduplicate (headlines : List Headline) : List Headline :=
  dedupAux [] headlines

/-- Python truthiness of an optional string argument: `None` and `""` are
falsy, every other string is truthy. -/
def truthy : Option String → Bool
  | none => false
  | some s => !(s == "")

/-- Bool-valued infix test on character lists, the semantics of Python
`needle in haystack` for strings. -/
def isSubstrOf : List Char → List Char → Bool
  | needle, [] => needle.isEmpty
  | needle, c :: t => needle.isPrefixOf (c :: t) || isSubstrOf needle t

/-- Python `str.lower()`: lowercase each character. -/
def pyLower (s : String) : List Char :=
  s.data.map Char.toLower

/-- `keyword.lower() in title.lower()`. -/
def containsCaseInsensitive (title kw : String) : Bool :=
  isSubstrOf (pyLower kw) (pyLower title)

/-- One conditional reassignment `if arg: filtered = [h for h in filtered
if pred(h)]` of `filter_headlines`. -/
def applyIf (c : Bool) (p : Headline → Bool) (l : List Headline) : List Headline :=
  if c then l.filter p else l

/-- `filter_headlines(headlines, source=None, keyword=None, date=None)`:
three optional conjunctive predicates applied in the order source,
keyword, date, each only when its argument is truthy. -/
def filter_headlines (headlines : List Headline)
    (source keyword date : Option String) : List Headline :=
  applyIf (truthy date) (fun h => h.publishedAt.take 10 == date.getD "")
    (applyIf (truthy keyword)
      (fun h => containsCaseInsensitive h.title (keyword.getD ""))
      (applyIf (truthy source) (fun h => h.source == source.getD "") headlines))

/-- The whitespace characters stripped by Python `str.strip()` /
`get_text(strip=True)` (ASCII range). -/
def isPySpace (c : Char) : Bool :=
  c == ' ' || c == '\t' || c == '\n' || c == '\r' || c == '\x0b' || c == '\x0c'

/-- Strip leading and trailing whitespace from a character list. -/
def stripChars (l : List Char) : List Char :=
  ((l.dropWhile isPySpace).reverse.dropWhile isPySpace).reverse

/-- Python `str.strip()`. -/
def pyStrip (s : String) : String := ⟨stripChars s.data⟩

/-- A raw NewsAPI article as the adapter sees it: `a.get('title')` may be
absent (`none`) and the remaining fields are read only when the title is
truthy. -/
structure RawArticle where
  title : Option String
  url : String
  publishedAt : String
deriving DecidableEq

/-- `fetch_newsapi_headlines`, as a function of the decoded articles list:
`[{...} for a in articles if a.get('title')]`. -/
def fetch_newsapi_headlines (articles : List RawArticle) : List Headline :=
  (articles.filter (fun a => truthy a.title)).map (fun a =>
    { source := "newsapi", title := a.title.getD "",
      url := a.url, publishedAt := a.publishedAt })

def BBC_URL : String := "https://www.bbc.com/news"

def CNN_URL : String := "https://edition.cnn.com/world"

/-- `fetch_bbc_headlines`, as a function of the text of the selected `h3`
nodes and of the collection time `now`: each node's text is stripped and
kept iff nonempty. -/
def fetch_bbc_headlines (items : List String) (now : String) : List Headline :=
  items.filterMap (fun item =>
    let title := pyStrip item
    if title == "" then none
    else some { source := "bbc", title := title, url := BBC_URL, publishedAt := now })

/-- `fetch_cnn_headlines`, as a function of the text of the selected
`span.cd__headline-text` nodes and of the collection time `now`. -/
def fetch_cnn_headlines (items : List String) (now : String) : List Headline :=
  items.filterMap (fun item =>
    let title := pyStrip item
    if title == "" then none
    else some { source := "cnn", title := title, url := CNN_URL, publishedAt := now })

/-- The only exception kind relevant to the fetch phase. -/
inductive FetchError where
  | fetchError : FetchError
deriving DecidableEq

/-- The fetch-and-pipeline portion of `main()` with `--source all`: the
three adapters are called in the fixed order newsapi, bbc, cnn and their
results concatenated, then deduplicated and filtered (`source` filter is
`None` because `args.source == 'all'`).  `main` has no try/except, so an
exception raised by any adapter propagates and aborts the run, which the
`Except` bind models. -/
def runAll (newsapi bbc cnn : Except FetchError (List Headline))
    (keyword date : Option String) : Except FetchError (List Headline) := do
  let h1 ← newsapi
  let h2 ← bbc
  let h3 ← cnn
  pure (filter_headlines (deduplicate (h1 ++ h2 ++ h3)) none keyword date)

/-- Sample record used in concrete scenarios: a kept 2024-01-05 headline. -/
def exKept : Headline := ⟨"newsapi", "A", "u", "2024-01-05T10:00:00"⟩

/-- Sample record used in concrete scenarios: a dropped 2024-01-06 headline. -/
def exDropped : Headline := ⟨"newsapi", "B", "u", "2024-01-06T00:00:00"⟩

/-- Sample record used in concrete scenarios: a bbc headline. -/
def exBbc : Headline := ⟨"bbc", "B headline", BBC_URL, "2024-01-05T10:00:00"⟩

/-- Sample record used in concrete scenarios: a cnn headline. -/
def exCnn : Headline := ⟨"cnn", "C headline", CNN_URL, "2024-01-05T11:00:00"⟩

/-! ### Properties of `deduplicate` -/

/-- A headline is in the output of the dedup loop iff its key is not in
`seen` and it is the first element of the remaining input carrying its key. -/
theorem mem_dedupAux (h : Headline) :
    ∀ (l : List Headline) (seen : List (String × String)),
      h ∈ dedupAux seen l ↔
        key h ∉ seen ∧ l.find? (fun x => key x == key h) = some h
  | [], seen => by simp [dedupAux]
  | a :: t, seen => by
    by_cases hks : key a ∈ seen
    · rw [dedupAux, if_pos hks, mem_dedupAux h t seen]
      by_cases hk : key a = key h
      · rw [List.find?_cons_of_pos t (by simp only [beq_iff_eq]; exact hk)]
        constructor
        · rintro ⟨hns, -⟩
          exact absurd (hk ▸ hks) hns
        · rintro ⟨hns, -⟩
          exact absurd (hk ▸ hks) hns
      · rw [List.find?_cons_of_neg t (by simp only [beq_iff_eq]; exact hk)]
    · rw [dedupAux, if_neg hks, List.mem_cons, mem_dedupAux h t (key a :: seen)]
      by_cases hk : key a = key h
      · rw [List.find?_cons_of_pos t (by simp only [beq_iff_eq]; exact hk)]
        constructor
        · rintro (rfl | ⟨hns, -⟩)
          · exact ⟨hk ▸ hks, rfl⟩
          · exact absurd (by rw [← hk]; exact List.mem_cons_self _ _) hns
        · rintro ⟨-, hf⟩
          exact Or.inl (Option.some.inj hf).symm
      · rw [List.find?_cons_of_neg t (by simp only [beq_iff_eq]; exact hk)]
        constructor
        · rintro (rfl | ⟨hns, hf⟩)
          · exact absurd rfl hk
          · exact ⟨fun hm => hns (List.mem_cons_of_mem _ hm), hf⟩
        · rintro ⟨hns, hf⟩
          refine Or.inr ⟨?_, hf⟩
          intro hmem
          rcases List.mem_cons.mp hmem with hxa | hxs
          · exact hk hxa.symm
          · exact hns hxs

/-- The dedup loop returns a sublist of its input. -/
theorem dedupAux_sublist : ∀ (l : List Headline) (seen), List.Sublist (dedupAux seen l) l
  | [], _ => by simp [dedupAux]
  | a :: t, seen => by
    rw [dedupAux]
    by_cases hks : key a ∈ seen
    · rw [if_pos hks]
      exact (dedupAux_sublist t seen).cons a
    · rw [if_neg hks]
      exact (dedupAux_sublist t _).cons₂ a

/-- The dedup loop emits pairwise distinct keys. -/
theorem dedupAux_pairwise : ∀ (l : List Headline) (seen),
    (dedupAux seen l).Pairwise (fun a b => key a ≠ key b)
  | [], _ => by simp [dedupAux]
  | a :: t, seen => by
    rw [dedupAux]
    by_cases hks : key a ∈ seen
    · rw [if_pos hks]
      exact dedupAux_pairwise t seen
    · rw [if_neg hks]
      refine List.Pairwise.cons ?_ (dedupAux_pairwise t _)
      intro b hb hab
      have hns := ((mem_dedupAux b t _).mp hb).1
      exact hns (by rw [← hab]; exact List.mem_cons_self _ _)

/-- On an input whose keys are pairwise distinct and disjoint from `seen`,
the dedup loop is the identity. -/
theorem dedupAux_eq_self : ∀ (l : List Headline) (seen),
    l.Pairwise (fun a b => key a ≠ key b) →
    (∀ x ∈ l, key x ∉ seen) → dedupAux seen l = l
  | [], _, _, _ => rfl
  | a :: t, seen, hp, hs => by
    have hx : ∀ x ∈ t, key x ∉ key a :: seen := by
      intro x hxt hmem
      rcases List.mem_cons.mp hmem with hxa | hxs
      · exact (List.rel_of_pairwise_cons hp hxt) hxa.symm
      · exact hs x (List.mem_cons_of_mem a hxt) hxs
    rw [dedupAux, if_neg (hs a (List.mem_cons_self a t)),
      dedupAux_eq_self t (key a :: seen) hp.of_cons hx]

/-- Claim C1: `deduplicate` keeps a record iff no earlier record of the
input has the same `(title, source)` key, i.e. iff the record is the first
occurrence of its key (`find?` returns it); on the three-record flood
scenario it returns the first bbc and the first cnn record. -/
theorem deduplicate_first_occurrence_wins :
    (∀ (l : List Headline) (h : Headline),
        h ∈ deduplicate l ↔ l.find? (fun x => key x == key h) = some h) ∧
      deduplicate [⟨"bbc", "Flood hits city", "u1", "t1"⟩,
          ⟨"cnn", "Flood hits city", "u2", "t2"⟩,
          ⟨"bbc", "Flood hits city", "u3", "t3"⟩] =
        [⟨"bbc", "Flood hits city", "u1", "t1"⟩,
          ⟨"cnn", "Flood hits city", "u2", "t2"⟩] := by
  constructor
  · intro l h
    rw [deduplicate, mem_dedupAux h l []]
    simp
  · rfl

/-- Claim C4: the output of `deduplicate` is a sublist of its input: every
output record occurs in the input unchanged and in the same relative
order. -/
theorem deduplicate_sublist (l : List Headline) : List.Sublist (deduplicate l) l :=
  dedupAux_sublist l []

/-- Claim C5: `deduplicate` is idempotent. -/
theorem deduplicate_idempotent (l : List Headline) :
    deduplicate (deduplicate l) = deduplicate l :=
  dedupAux_eq_self (deduplicate l) [] (dedupAux_pairwise l []) (by simp)

/-- Claim C10: the records output by `deduplicate` have pairwise distinct
`(title, source)` keys, and the output is never longer than the input. -/
theorem deduplicate_keys_distinct_and_length_le (l : List Headline) :
    (deduplicate l).Pairwise (fun a b => key a ≠ key b) ∧
      (deduplicate l).length ≤ l.length :=
  ⟨dedupAux_pairwise l [], (dedupAux_sublist l []).length_le⟩

/-! ### Properties of `filter_headlines` -/

/-- Membership in an optionally applied filter stage implies membership in
the stage's input. -/
theorem mem_of_mem_applyIf {l : List Headline} {c : Bool} {p : Headline → Bool}
    {h : Headline} (hm : h ∈ applyIf c p l) : h ∈ l := by
  cases c
  · simpa [applyIf] using hm
  · exact (List.mem_filter.mp (by simpa [applyIf] using hm)).1

/-- A member of an applied filter stage satisfies the stage's predicate. -/
theorem pred_of_mem_applyIf {l : List Headline} {c : Bool} {p : Headline → Bool}
    {h : Headline} (hm : h ∈ applyIf c p l) (hc : c = true) :
    p h = true := by
  subst hc
  exact (List.mem_filter.mp (by simpa [applyIf] using hm)).2

/-- A filter stage whose predicate holds on the whole input (whenever the
stage is active) is the identity. -/
theorem applyIf_eq_self {l : List Headline} {c : Bool} {p : Headline → Bool}
    (hall : c = true → ∀ h ∈ l, p h = true) :
    applyIf c p l = l := by
  cases c
  · simp [applyIf]
  · simpa [applyIf] using List.filter_eq_self.mpr (hall rfl)

/-- An unconditionally applied filter stage is a plain filter. -/
theorem applyIf_true (p : Headline → Bool) (l : List Headline) :
    applyIf true p l = l.filter p := rfl

/-- Every record kept by `filter_headlines` comes from the input and
satisfies each predicate that was active. -/
theorem mem_filter_headlines {x : List Headline} {s k d : Option String}
    {h : Headline} (hm : h ∈ filter_headlines x s k d) :
    h ∈ x ∧
      (truthy s = true → (h.source == s.getD "") = true) ∧
      (truthy k = true → containsCaseInsensitive h.title (k.getD "") = true) ∧
      (truthy d = true → (h.publishedAt.take 10 == d.getD "") = true) := by
  rw [filter_headlines] at hm
  have hm2 := mem_of_mem_applyIf hm
  have hm1 := mem_of_mem_applyIf hm2
  have hm0 := mem_of_mem_applyIf hm1
  refine ⟨hm0, fun hc => ?_, fun hc => ?_, fun hc => ?_⟩
  · rw [hc, applyIf_true] at hm1
    exact (List.mem_filter.mp hm1).2
  · rw [hc, applyIf_true] at hm2
    exact (List.mem_filter.mp hm2).2
  · rw [hc, applyIf_true] at hm
    exact (List.mem_filter.mp hm).2

/-- `filter_headlines` is the identity on an input every record of which
satisfies each active predicate. -/
theorem filter_headlines_eq_self {x : List Headline} {s k d : Option String}
    (H : ∀ h ∈ x,
      (truthy s = true → (h.source == s.getD "") = true) ∧
      (truthy k = true → containsCaseInsensitive h.title (k.getD "") = true) ∧
      (truthy d = true → (h.publishedAt.take 10 == d.getD "") = true)) :
    filter_headlines x s k d = x := by
  rw [filter_headlines]
  rw [applyIf_eq_self (fun hc h hm => (H h hm).1 hc)]
  rw [applyIf_eq_self (fun hc h hm => (H h hm).2.1 hc)]
  rw [applyIf_eq_self (fun hc h hm => (H h hm).2.2 hc)]

/-- Claim C6: filtering by source and then by keyword in two calls equals
one call carrying both predicates. -/
theorem filter_headlines_conjunction (x : List Headline) (S K : String) :
    filter_headlines (filter_headlines x (some S) none none) none (some K) none =
      filter_headlines x (some S) (some K) none := by
  simp [filter_headlines, applyIf, truthy]

/-- Claim C7: applying `filter_headlines` a second time with the same
predicate set to its own output returns that output unchanged. -/
theorem filter_headlines_idempotent (x : List Headline) (s k d : Option String) :
    filter_headlines (filter_headlines x s k d) s k d = filter_headlines x s k d :=
  filter_headlines_eq_self (fun _ hm => (mem_filter_headlines hm).2)

/-- Claim C8: with only a (nonempty) date argument, a record is kept iff
it was in the input and the first 10 characters of its `publishedAt`
equal the date string. -/
theorem filter_headlines_date_iff (x : List Headline) (D : String) (hD : D ≠ "")
    (h : Headline) :
    h ∈ filter_headlines x none none (some D) ↔
      h ∈ x ∧ h.publishedAt.take 10 = D := by
  simp [filter_headlines, applyIf, truthy, hD, List.mem_filter]

/-- Claim C9: filtering by a source that every record already has is a
no-op. -/
theorem filter_headlines_source_noop (x : List Headline) (S : String)
    (hx : ∀ h ∈ x, h.source = S) :
    filter_headlines x (some S) none none = x :=
  filter_headlines_eq_self (fun h hm =>
    ⟨fun _ => by simp [hx h hm], fun hc => by simp [truthy] at hc,
      fun hc => by simp [truthy] at hc⟩)

/-- Witness for C9 at a concrete single-source input. -/
theorem filter_headlines_source_noop_witness :
    (∀ h ∈ [exBbc], h.source = "bbc") ∧
      filter_headlines [exBbc] (some "bbc") none none = [exBbc] :=
  ⟨by decide, filter_headlines_source_noop [exBbc] "bbc" (by decide)⟩

/-- Witness for C8 at the spec's scenario records and date. -/
theorem filter_headlines_date_iff_witness :
    "2024-01-05" ≠ "" ∧
      (exKept ∈ filter_headlines [exKept, exDropped] none none (some "2024-01-05") ↔
        exKept ∈ [exKept, exDropped] ∧ exKept.publishedAt.take 10 = "2024-01-05") :=
  ⟨by decide, filter_headlines_date_iff [exKept, exDropped] "2024-01-05" (by decide) exKept⟩

/-! ### Properties of the adapters and of the `main` fetch phase -/

/-- A non-space element of a list survives `dropWhile isPySpace`. -/
theorem mem_dropWhile_of_not {c : Char} {l : List Char}
    (hc : c ∈ l) (hns : isPySpace c = false) : c ∈ l.dropWhile isPySpace := by
  have hsplit : l.takeWhile isPySpace ++ l.dropWhile isPySpace = l :=
    List.takeWhile_append_dropWhile isPySpace l
  rw [← hsplit] at hc
  rcases List.mem_append.mp hc with h1 | h2
  · exact absurd (List.mem_takeWhile_imp h1) (by simp [hns])
  · exact h2

/-- A non-space character of `l` survives `stripChars`. -/
theorem mem_stripChars_of_not {c : Char} {l : List Char}
    (hc : c ∈ l) (hns : isPySpace c = false) : c ∈ stripChars l := by
  rw [stripChars, List.mem_reverse]
  exact mem_dropWhile_of_not (List.mem_reverse.mpr (mem_dropWhile_of_not hc hns)) hns

/-- `stripChars` returns `[]` iff every character is whitespace. -/
theorem stripChars_eq_nil_iff {l : List Char} :
    stripChars l = [] ↔ ∀ c ∈ l, isPySpace c = true := by
  rw [stripChars, List.reverse_eq_nil_iff, List.dropWhile_eq_nil_iff]
  constructor
  · intro H c hc
    by_cases hns : isPySpace c = true
    · exact hns
    · exact H c (List.mem_reverse.mpr (mem_dropWhile_of_not hc (by simpa using hns)))
  · intro H c hc
    exact H c ((List.dropWhile_sublist isPySpace).subset (List.mem_reverse.mp hc))

/-- A string strips to `""` iff it is all whitespace. -/
theorem pyStrip_eq_empty_iff {s : String} :
    pyStrip s = "" ↔ ∀ c ∈ s.data, isPySpace c = true := by
  rw [pyStrip, show ("" : String) = ⟨[]⟩ from rfl, String.ext_iff]
  exact stripChars_eq_nil_iff

/-- Stripping an already stripped nonempty string keeps it nonempty. -/
theorem pyStrip_pyStrip_ne_empty {s : String} (h : pyStrip s ≠ "") :
    pyStrip (pyStrip s) ≠ "" := by
  intro hcontra
  have h1 : ¬ ∀ c ∈ s.data, isPySpace c = true :=
    fun H => h (pyStrip_eq_empty_iff.mpr H)
  push_neg at h1
  obtain ⟨c, hc, hns⟩ := h1
  have hns' : isPySpace c = false := by simpa using hns
  have hcs : c ∈ stripChars s.data := mem_stripChars_of_not hc hns'
  have hsp := pyStrip_eq_empty_iff.mp hcontra c hcs
  rw [hsp] at hns'
  exact Bool.noConfusion hns'

/-- A record produced by a scraping adapter's loop has a title that is a
stripped nonempty node text, hence still nonempty after stripping. -/
theorem scraped_title_strips_nonempty {items : List String}
    {src url now : String} {h : Headline}
    (hm : h ∈ items.filterMap (fun item =>
      let title := pyStrip item
      if title == "" then none
      else some { source := src, title := title, url := url, publishedAt := now })) :
    pyStrip h.title ≠ "" := by
  obtain ⟨item, -, hf⟩ := List.mem_filterMap.mp hm
  by_cases he : (pyStrip item == "") = true
  · rw [if_pos he] at hf
    exact Option.noConfusion hf
  · rw [if_neg he] at hf
    obtain rfl := Option.some.inj hf
    exact fun hcontra => pyStrip_pyStrip_ne_empty (by simpa using he) hcontra

/-- Claim C3 counterexample: a NewsAPI article whose title is the
whitespace-only string `"   "` passes `if a.get('title')` (nonempty
strings are truthy) and is emitted into the pipeline, although its title
strips to the empty string. -/
theorem fetch_newsapi_whitespace_title_counterexample :
    fetch_newsapi_headlines [⟨some "   ", "u", "t"⟩] =
      [⟨"newsapi", "   ", "u", "t"⟩] ∧ pyStrip "   " = "" := by
  refine ⟨rfl, by decide⟩

/-- Claim C3 amended: the bbc and cnn scrapers never emit a record whose
title strips to the empty string (node text is stripped and kept only if
nonempty), and the NewsAPI adapter never emits a missing or literally
empty title — but it does not strip, so whitespace-only NewsAPI titles
enter the pipeline. -/
theorem adapters_empty_title_policy :
    (∀ (items : List String) (now : String) (h : Headline),
        h ∈ fetch_bbc_headlines items now → pyStrip h.title ≠ "") ∧
    (∀ (items : List String) (now : String) (h : Headline),
        h ∈ fetch_cnn_headlines items now → pyStrip h.title ≠ "") ∧
    (∀ (articles : List RawArticle) (h : Headline),
        h ∈ fetch_newsapi_headlines articles → h.title ≠ "") := by
  refine ⟨?_, ?_, ?_⟩
  · intro items now h hm
    rw [fetch_bbc_headlines] at hm
    exact scraped_title_strips_nonempty hm
  · intro items now h hm
    rw [fetch_cnn_headlines] at hm
    exact scraped_title_strips_nonempty hm
  · intro articles h hm
    rw [fetch_newsapi_headlines] at hm
    obtain ⟨a, ha, rfl⟩ := List.mem_map.mp hm
    have ht := (List.mem_filter.mp ha).2
    show a.title.getD "" ≠ ""
    cases hat : a.title with
    | none => rw [hat] at ht; exact absurd ht (by simp [truthy])
    | some t =>
      rw [hat] at ht
      simp [truthy] at ht
      simpa using ht

/-- Witness for the amended C3 at a concrete scraped node. -/
theorem adapters_empty_title_policy_witness :
    pyStrip (Headline.mk "bbc" "T" BBC_URL "now").title ≠ "" :=
  adapters_empty_title_policy.1 ["  T "] "now" ⟨"bbc", "T", BBC_URL, "now"⟩ (by decide)

/-- Claim C2 counterexample: with the NewsAPI adapter raising a fetch
error and bbc, cnn succeeding, `main` does not produce the successful
adapters' (deduplicated, filtered) headlines — the uncaught exception
aborts the run. -/
theorem runAll_one_failure_counterexample :
    runAll (Except.error FetchError.fetchError)
        (Except.ok [exBbc]) (Except.ok [exCnn]) none none =
      Except.error FetchError.fetchError ∧
    runAll (Except.error FetchError.fetchError)
        (Except.ok [exBbc]) (Except.ok [exCnn]) none none ≠
      Except.ok (filter_headlines (deduplicate ([exBbc] ++ [exCnn])) none none none) :=
  ⟨rfl, fun hcontra => Except.noConfusion hcontra⟩

/-- Claim C2 amended: an adapter's uncaught fetch error propagates out of
`main` and aborts the whole run, whichever adapter fails; the final
(deduplicated, filtered) output is produced only when every selected
adapter succeeds. -/
theorem runAll_error_aborts :
    (∀ (e : FetchError) (b c : Except FetchError (List Headline))
        (kw d : Option String), runAll (Except.error e) b c kw d = Except.error e) ∧
    (∀ (e : FetchError) (l1 : List Headline) (c : Except FetchError (List Headline))
        (kw d : Option String),
        runAll (Except.ok l1) (Except.error e) c kw d = Except.error e) ∧
    (∀ (e : FetchError) (l1 l2 : List Headline) (kw d : Option String),
        runAll (Except.ok l1) (Except.ok l2) (Except.error e) kw d = Except.error e) ∧
    (∀ (l1 l2 l3 : List Headline) (kw d : Option String),
        runAll (Except.ok l1) (Except.ok l2) (Except.ok l3) kw d =
          Except.ok (filter_headlines (deduplicate (l1 ++ l2 ++ l3)) none kw d)) :=
  ⟨fun _ _ _ _ _ => rfl, fun _ _ _ _ _ => rfl, fun _ _ _ _ _ => rfl,
    fun _ _ _ _ _ => rfl⟩

end NewsAgg
